import Mathlib

/-!
A verification development for the `gml` Gmail command-line client.

The definitions below are a shallow embedding of the Go sources:

* `internal/gml/messages.go` — `MessageInfo`, `ListMessagesOptions`,
  `ListMessages`, `GetMessage`, `buildMessageInfo`, `ExtractBody`,
  `findBodyPart`, `ParseFields`;
* `internal/gml/labels.go` — `LabelIndex`, `FetchLabelIndex`,
  `ResolveLabelIDs`, `MapLabelIDsToNames`, `GetUserEmail`, `BuildMailURL`;
* `internal/gml/format.go` — `truncate` (byte-level string truncation).

Modelling conventions:

* Go `map[string]V` is modelled as an association list with
  replace-on-insert (`mapUpd`) and first-match lookup (`mapGet?`), which
  matches Go map semantics (one binding per key, last write wins).
* The external base64url decoder (`base64.URLEncoding.DecodeString`) is an
  abstract parameter `dec : String → Option String` (`none` = decode error).
* The Gmail service is an oracle (`Server`) recording the responses the
  remote end would give; the pagination loop consumes the successive
  responses of the list endpoint in order.
* Go `nil` pointers are `Option.none`; a Go nil-pointer dereference is the
  explicit result `GoResult.crash`.
* Byte strings (for `truncate`, where Go indexes raw bytes) are `List Nat`.
-/

namespace Gml

/-! ### Go map model -/

/-- Go map insertion `m[k] = v`: replace the binding of `k` if present,
otherwise append it. -/
def mapUpd {α : Type} (m : List (String × α)) (k : String) (v : α) :
    List (String × α) :=
  match m with
  | [] => [(k, v)]
  | (k0, v0) :: rest =>
    if k0 = k then (k, v) :: rest else (k0, v0) :: mapUpd rest k v

/-- Go map lookup `v, ok := m[k]`. -/
def mapGet? {α : Type} (m : List (String × α)) (k : String) : Option α :=
  match m with
  | [] => none
  | (k0, v0) :: rest => if k0 = k then some v0 else mapGet? rest k

theorem mapGet?_mapUpd {α : Type} (m : List (String × α)) (k k' : String)
    (v : α) :
    mapGet? (mapUpd m k v) k' = if k = k' then some v else mapGet? m k' := by
  induction m with
  | nil => simp [mapUpd, mapGet?]
  | cons hd tl ih =>
    obtain ⟨k0, v0⟩ := hd
    by_cases h0 : k0 = k
    · subst h0
      by_cases h1 : k0 = k' <;> simp [mapUpd, mapGet?, h1]
    · by_cases h1 : k0 = k'
      · subst h1
        have h2 : k ≠ k0 := fun h => h0 h.symm
        simp [mapUpd, mapGet?, h0, h2]
      · simp [mapUpd, mapGet?, h0, h1, ih]

/-! ### Message part trees (gmail.MessagePart)

`MessagePart.mk mimeType bodyData headers parts` models a
`*gmail.MessagePart`: `bodyData = none` is a nil `Body` pointer,
`bodyData = some d` a `Body` whose base64url-encoded `Data` field is `d`;
`headers` is the `Headers` list as (name, value) pairs. -/

inductive MessagePart : Type where
  | mk : String → Option String → List (String × String) →
      List MessagePart → MessagePart

def MessagePart.mimeType : MessagePart → String
  | .mk mt _ _ _ => mt

/-- The `Data` seen through the Go guard `part.Body != nil`: a nil `Body`
behaves exactly like empty data in every test the code performs. -/
def MessagePart.bodyData : MessagePart → String
  | .mk _ ob _ _ => ob.getD ""

def MessagePart.headers : MessagePart → List (String × String)
  | .mk _ _ hs _ => hs

def MessagePart.parts : MessagePart → List MessagePart
  | .mk _ _ _ ps => ps

/-- Structural induction for `MessagePart` through the nested list of
sub-parts. -/
theorem MessagePart.induct (motive : MessagePart → Prop)
    (step : ∀ mt ob hs ps, (∀ p ∈ ps, motive p) → motive (.mk mt ob hs ps)) :
    ∀ t, motive t := by
  intro t
  generalize hn : sizeOf t = n
  induction n using Nat.strong_induction_on generalizing t with
  | _ n ih =>
    cases t with
    | mk mt ob hs ps =>
      apply step
      intro p hp
      have hlt : sizeOf p < sizeOf (MessagePart.mk mt ob hs ps) := by
        have h1 := List.sizeOf_lt_of_mem hp
        simp only [MessagePart.mk.sizeOf_spec]
        omega
      exact ih (sizeOf p) (hn ▸ hlt) p rfl

/-! ### Body extraction (messages.go `findBodyPart` / `ExtractBody`) -/

mutual

/-- Embeds `findBodyPart` from messages.go: if this part's MIME type is
the requested one and it carries non-empty encoded data, decode it (a
decode error yields `""` for this whole call, without visiting the
sub-parts); otherwise scan the sub-parts in order and return the first
non-empty result. -/
def findBodyPart (dec : String → Option String) (mimeType : String) :
    MessagePart → String
  | .mk mt ob hs ps =>
    if mt = mimeType ∧ (MessagePart.mk mt ob hs ps).bodyData ≠ "" then
      match dec (MessagePart.mk mt ob hs ps).bodyData with
      | none => ""
      | some s => s
    else findBodyPartList dec mimeType ps

/-- The `for _, p := range part.Parts` loop of `findBodyPart`. -/
def findBodyPartList (dec : String → Option String) (mimeType : String) :
    List MessagePart → String
  | [] => ""
  | p :: rest =>
    let b := findBodyPart dec mimeType p
    if b ≠ "" then b else findBodyPartList dec mimeType rest

end

/-- Embeds `ExtractBody` from messages.go: nil payload yields `""`;
otherwise try `text/plain`, then `text/html`, then the payload's own
inline body data. -/
def ExtractBody (dec : String → Option String) :
    Option MessagePart → String
  | none => ""
  | some payload =>
    let b := findBodyPart dec "text/plain" payload
    if b ≠ "" then b
    else
      let b2 := findBodyPart dec "text/html" payload
      if b2 ≠ "" then b2
      else if payload.bodyData ≠ "" then
        match dec payload.bodyData with
        | none => ""
        | some s => s
      else ""

mutual

/-- All parts of the tree in depth-first pre-order (the node itself first,
then the sub-parts in the order they appear). -/
def allParts : MessagePart → List MessagePart
  | .mk mt ob hs ps => .mk mt ob hs ps :: allPartsList ps

def allPartsList : List MessagePart → List MessagePart
  | [] => []
  | p :: rest => allParts p ++ allPartsList rest

end

theorem mem_allParts_self (t : MessagePart) : t ∈ allParts t := by
  cases t with
  | mk mt ob hs ps => simp [allParts]

theorem mem_allPartsList_iff (q : MessagePart) (ps : List MessagePart) :
    q ∈ allPartsList ps ↔ ∃ p ∈ ps, q ∈ allParts p := by
  induction ps with
  | nil => simp [allPartsList]
  | cons hd tl ih =>
    simp only [allPartsList, List.mem_append, ih]
    constructor
    · rintro (h | ⟨p, hp, hq⟩)
      · exact ⟨hd, List.mem_cons_self hd tl, h⟩
      · exact ⟨p, List.mem_cons_of_mem hd hp, hq⟩
    · rintro ⟨p, hp, hq⟩
      rcases List.mem_cons.mp hp with h | h
      · subst h; exact Or.inl hq
      · exact Or.inr ⟨p, h, hq⟩

/-! ### Spec-side vocabulary for the body-extraction claims -/

/-- A part is a candidate for `mimeType` when its declared MIME type is
`mimeType` and its encoded content is non-empty (the condition tested by
`findBodyPart`). -/
def isCandidate (mimeType : String) (p : MessagePart) : Bool :=
  decide (p.mimeType = mimeType) && decide (p.bodyData ≠ "")

/-- The decoded content of the first candidate part for `mimeType`, in
depth-first pre-order, whose content decodes successfully — the part the
spec says body extraction returns. -/
def firstDecodedSpec (dec : String → Option String) (mimeType : String)
    (t : MessagePart) : Option String :=
  (allParts t).findSome?
    (fun p => if isCandidate mimeType p then dec p.bodyData else none)

/-- Some candidate of MIME type `text/plain` or `text/html` somewhere in
the tree decodes successfully. -/
def anyTextCandidateDecodes (dec : String → Option String)
    (t : MessagePart) : Bool :=
  (allParts t).any (fun p =>
    (isCandidate "text/plain" p || isCandidate "text/html" p) &&
      (dec p.bodyData).isSome)

/-- The root's inline body content is non-empty and decodes
successfully. -/
def rootInlineDecodes (dec : String → Option String)
    (t : MessagePart) : Bool :=
  decide (t.bodyData ≠ "") && (dec t.bodyData).isSome

/-- Every part that carries non-empty encoded content is childless — the
shape MIME messages actually have (content lives in leaf parts). -/
def leafBodies (t : MessagePart) : Bool :=
  (allParts t).all (fun p => decide (p.bodyData = "") || p.parts.isEmpty)

/-- A decoder is sound when decoding a non-empty string, if it succeeds,
yields a non-empty string; base64url decoding of non-blank data has this
property. -/
def DecNonEmpty (dec : String → Option String) : Prop :=
  ∀ s, s ≠ "" → ∀ u, dec s = some u → u ≠ ""

/-- A concrete decoder for the witnesses: fails on `"BAD"`, succeeds and
returns the input on anything else. -/
def dec0 (s : String) : Option String :=
  if s = "BAD" then none else some s

theorem dec0_nonEmpty : DecNonEmpty dec0 := by
  intro s hs u hu
  unfold dec0 at hu
  split at hu
  · cases hu
  · cases hu; exact hs

theorem leafBodies_of_mem_parts {mt ob hs ps} {p : MessagePart}
    (h : leafBodies (.mk mt ob hs ps) = true) (hp : p ∈ ps) :
    leafBodies p = true := by
  simp only [leafBodies, List.all_eq_true] at h ⊢
  intro q hq
  exact h q (by
    simp only [allParts, List.mem_cons]
    exact Or.inr ((mem_allPartsList_iff q ps).mpr ⟨p, hp, hq⟩))

theorem firstDecodedSpec_ne_empty {dec : String → Option String}
    (hdec : DecNonEmpty dec) {mimeType : String} {t : MessagePart}
    {s : String} (h : firstDecodedSpec dec mimeType t = some s) : s ≠ "" := by
  obtain ⟨p, _, hfp⟩ := List.exists_of_findSome?_eq_some h
  by_cases hc : isCandidate mimeType p = true
  · rw [if_pos hc] at hfp
    have hne : p.bodyData ≠ "" := by
      simp only [isCandidate, Bool.and_eq_true, decide_eq_true_eq] at hc
      exact hc.2
    exact hdec p.bodyData hne s hfp
  · rw [if_neg hc] at hfp
    cases hfp

/-- The loop body of `findBodyPart` agrees with the spec-order scan,
provided the tree keeps content in leaves and the decoder is sound. -/
theorem findBodyPartList_eq_findSome? (dec : String → Option String)
    (hdec : DecNonEmpty dec) (mimeType : String) :
    ∀ qs : List MessagePart,
      (∀ p ∈ qs, leafBodies p = true →
        findBodyPart dec mimeType p =
          (firstDecodedSpec dec mimeType p).getD "") →
      (∀ p ∈ qs, leafBodies p = true) →
      findBodyPartList dec mimeType qs =
        ((allPartsList qs).findSome?
          (fun p => if isCandidate mimeType p then dec p.bodyData
                    else none)).getD "" := by
  intro qs
  induction qs with
  | nil => intro _ _; simp [findBodyPartList, allPartsList]
  | cons p rest ih =>
    intro hspec hleaf
    have hp := hspec p (List.mem_cons_self p rest)
      (hleaf p (List.mem_cons_self p rest))
    have hrest := ih
      (fun q hq => hspec q (List.mem_cons_of_mem p hq))
      (fun q hq => hleaf q (List.mem_cons_of_mem p hq))
    simp only [findBodyPartList, allPartsList, List.findSome?_append]
    cases hfs : firstDecodedSpec dec mimeType p with
    | some s =>
      have hs := firstDecodedSpec_ne_empty hdec hfs
      rw [hfs] at hp
      simp only [Option.getD_some] at hp
      simp only [firstDecodedSpec] at hfs
      rw [hfs]
      simp [hp, hs, Option.or]
    | none =>
      rw [hfs] at hp
      simp only [Option.getD_none] at hp
      simp only [firstDecodedSpec] at hfs
      rw [hfs]
      simp [hp, hrest, Option.or]

/-- Under leaf-shaped content and a sound decoder, `findBodyPart` returns
exactly the decoded content of the first candidate (in depth-first
pre-order) that decodes successfully, and `""` when there is none. -/
theorem findBodyPart_eq_firstDecodedSpec (dec : String → Option String)
    (hdec : DecNonEmpty dec) (mimeType : String) :
    ∀ t, leafBodies t = true →
      findBodyPart dec mimeType t =
        (firstDecodedSpec dec mimeType t).getD "" := by
  intro t
  induction t using MessagePart.induct with
  | step mt ob hs ps ih =>
    intro hleaf
    by_cases hcond : mt = mimeType ∧ (MessagePart.mk mt ob hs ps).bodyData ≠ ""
    · have hcand : isCandidate mimeType (MessagePart.mk mt ob hs ps) = true := by
        obtain ⟨h1, h2⟩ := hcond
        subst h1
        simp [isCandidate, MessagePart.mimeType, h2]
      cases hdata : dec (MessagePart.mk mt ob hs ps).bodyData with
      | some s =>
        simp only [findBodyPart, if_pos hcond, hdata,
          firstDecodedSpec, allParts, List.findSome?_cons, hcand,
          if_pos rfl]
        simp [hcand, hdata]
      | none =>
        have hps : ps = [] := by
          have hmem : (MessagePart.mk mt ob hs ps) ∈
              allParts (MessagePart.mk mt ob hs ps) := mem_allParts_self _
          simp only [leafBodies, List.all_eq_true] at hleaf
          have := hleaf _ hmem
          simp only [MessagePart.bodyData] at hcond
          simp only [MessagePart.bodyData, MessagePart.parts,
            Bool.or_eq_true, decide_eq_true_eq, List.isEmpty_iff] at this
          rcases this with h | h
          · exact absurd h hcond.2
          · exact h
      -- with no sub-parts the pre-order scan stops at the root
        subst hps
        simp only [findBodyPart, if_pos hcond, hdata, firstDecodedSpec,
          allParts, allPartsList, List.findSome?_cons]
        simp [hcand, hdata, List.findSome?]
    · have hcand : isCandidate mimeType (MessagePart.mk mt ob hs ps) = false := by
        simp only [isCandidate, MessagePart.mimeType, MessagePart.bodyData]
        simp only [MessagePart.bodyData] at hcond
        rcases Decidable.not_and_iff_or_not.mp hcond with h | h
        · simp [h]
        · simp only [ne_eq, Decidable.not_not] at h
          simp [h]
      have hlist := findBodyPartList_eq_findSome? dec hdec mimeType ps
        (fun p hp hl => ih p hp hl)
        (fun p hp => leafBodies_of_mem_parts hleaf hp)
      simp only [findBodyPart, if_neg hcond, hlist, firstDecodedSpec,
        allParts, List.findSome?_cons, hcand]
      simp [MessagePart.parts]

/-! ### Go string primitives

`strings.ToLower`, `strings.TrimSpace` and `strings.Split(s, ",")` are
modelled directly over the character sequence of the string (the claims
only exercise ASCII data, where these agree with Go's Unicode-aware
versions). -/

/-- Models `strings.ToLower`. -/
def goToLower (s : String) : String := ⟨s.data.map Char.toLower⟩

/-- The white-space test of `strings.TrimSpace` (`unicode.IsSpace`),
restricted to the ASCII space characters. -/
def isSpaceChar (c : Char) : Bool :=
  c = ' ' || c = '\t' || c = '\n' || c = Char.ofNat 11 ||
    c = Char.ofNat 12 || c = '\r'

/-- Models `strings.TrimSpace`: drop white space from both ends. -/
def goTrimSpace (s : String) : String :=
  ⟨((s.data.dropWhile isSpaceChar).reverse.dropWhile isSpaceChar).reverse⟩

/-- Models `strings.Split(s, ",")`. -/
def goSplitComma (s : String) : List String :=
  (s.data.splitOn ',').map (fun cs => ⟨cs⟩)

/-! ### Labels (labels.go) -/

/-- A Gmail label as returned by the labels.list call (`gmail.Label`):
its canonical `Id` and display `Name`. -/
structure GoLabel where
  id : String
  name : String

/-- Embeds the `LabelIndex` struct of labels.go. -/
structure LabelIndex where
  nameToID : List (String × String)
  idToName : List (String × String)
  idToID : List (String × String)

/-- The index-building loop of `FetchLabelIndex`: lowercase name → ID,
lowercase ID → display name, lowercase ID → ID. -/
def buildLabelIndex (labels : List GoLabel) : LabelIndex :=
  { nameToID := labels.foldl (fun m l => mapUpd m (goToLower l.name) l.id) []
    idToName := labels.foldl (fun m l => mapUpd m (goToLower l.id) l.name) []
    idToID := labels.foldl (fun m l => mapUpd m (goToLower l.id) l.id) [] }

/-- The `for _, raw := range requested` loop of `ResolveLabelIDs`. -/
def resolveLoop (idx : LabelIndex) : List String → Except String (List String)
  | [] => .ok []
  | raw :: rest =>
    let label := goToLower (goTrimSpace raw)
    match mapGet? idx.nameToID label with
    | some id => (resolveLoop idx rest).map (fun r => id :: r)
    | none =>
      match mapGet? idx.idToID label with
      | some id => (resolveLoop idx rest).map (fun r => id :: r)
      | none => .error ("label not found: " ++ raw)

/-- Embeds `ResolveLabelIDs` from labels.go (`none` is a nil receiver). -/
def ResolveLabelIDs (idx : Option LabelIndex) (requested : List String) :
    Except String (List String) :=
  match idx with
  | none => .error "label index is nil"
  | some idx => resolveLoop idx requested

/-- Embeds `MapLabelIDsToNames` from labels.go (`none` is a nil receiver,
which returns the IDs unchanged). -/
def MapLabelIDsToNames (idx : Option LabelIndex) (ids : List String) :
    List String :=
  match idx with
  | none => ids
  | some idx =>
    ids.map (fun id => (mapGet? idx.idToName (goToLower id)).getD id)

/-- Spec-side single-token resolution: name lookup first, identity (ID)
lookup only on a name miss, both on the trimmed, lowercased token. -/
def resolveToken (idx : LabelIndex) (raw : String) : Option String :=
  match mapGet? idx.nameToID (goToLower (goTrimSpace raw)) with
  | some id => some id
  | none => mapGet? idx.idToID (goToLower (goTrimSpace raw))

/-! ### Field sets (messages.go `ParseFields`) -/

/-- Embeds `ParseFields` from messages.go: split on commas, lowercase
then trim each token, insert into a `map[string]bool`. -/
def ParseFields (fieldsStr : String) : List (String × Bool) :=
  (goSplitComma fieldsStr).foldl
    (fun m f => mapUpd m (goTrimSpace (goToLower f)) true) []

/-- A `fields[name]` test on a Go `map[string]bool` (missing key reads as
`false`). -/
def FieldsMem (fields : List (String × Bool)) (name : String) : Bool :=
  (mapGet? fields name).getD false

/-! ### Messages, the service oracle, and the two pipelines -/

/-- A `*gmail.Message`: the fields the client reads. -/
structure GmailMessage where
  id : String
  threadId : String
  labelIds : List String
  snippet : String
  payload : Option MessagePart

/-- Embeds the `MessageInfo` output struct of messages.go; every field
carries a `json:",omitempty"` tag. -/
structure MessageInfo where
  ID : String
  ThreadID : String
  URL : String
  From : String
  To : String
  Subject : String
  Date : String
  Snippet : String
  Labels : List String
  Body : String
deriving DecidableEq

/-- Embeds the `MessageDetail` output struct of messages.go (no
`omitempty` tags). -/
structure MessageDetail where
  ID : String
  ThreadID : String
  URL : String
  From : String
  To : String
  Subject : String
  Date : String
  Labels : List String
  Body : String
deriving DecidableEq

/-- Embeds `ListMessagesOptions` from messages.go. -/
structure ListMessagesOptions where
  Query : String
  MaxResults : Int
  LabelIDs : List String
  Fields : List (String × Bool)

/-- One response of the messages.list endpoint: a page of message IDs
plus the continuation token (`""` when no more pages exist). -/
structure ListPage where
  messages : List String
  nextPageToken : String
deriving DecidableEq

/-- The remote Gmail service, as the trace of responses it gives:
`profile` answers users.getProfile, `labelsList` answers labels.list,
`listResponses` are the successive answers of messages.list (one per
loop iteration, in order), and `getFull`/`getMetadata` answer
messages.get for the two fidelity levels. -/
structure Server where
  profile : Except String String
  labelsList : Except String (List GoLabel)
  listResponses : List (Except String ListPage)
  getFull : String → Except String GmailMessage
  getMetadata : String → Except String GmailMessage

/-- The result of a Go function that can also crash on a nil-pointer
dereference. -/
inductive GoResult (α : Type) where
  | ok : α → GoResult α
  | err : String → GoResult α
  | crash : GoResult α
deriving DecidableEq

/-- Embeds `GetUserEmail` from labels.go. -/
def GetUserEmail (srv : Server) : Except String String :=
  match srv.profile with
  | .error e => .error ("unable to get user profile: " ++ e)
  | .ok email => .ok email

/-- Embeds `FetchLabelIndex` from labels.go. -/
def FetchLabelIndex (srv : Server) : Except String LabelIndex :=
  match srv.labelsList with
  | .error e => .error ("unable to list labels: " ++ e)
  | .ok ls => .ok (buildLabelIndex ls)

/-- Embeds `BuildMailURL` from labels.go. -/
def BuildMailURL (email threadID : String) : String :=
  "https://mail.google.com/mail/?authuser=" ++ email ++ "#all/" ++ threadID

/-- The pagination loop of `ListMessages`: consume one list response per
iteration, append its message IDs, stop as soon as a response carries no
continuation token; a failing call aborts with the wrapped error. -/
def collectIds : List (Except String ListPage) →
    Except String (List String)
  | [] => .ok []
  | .error e :: _ => .error ("unable to retrieve messages: " ++ e)
  | .ok page :: rest =>
    if page.nextPageToken = "" then .ok page.messages
    else (collectIds rest).map (fun ids => page.messages ++ ids)

/-- One iteration of the header `switch` of `buildMessageInfo`. -/
def headerStep (fields : List (String × Bool)) (acc : MessageInfo)
    (h : String × String) : MessageInfo :=
  if h.1 = "From" then
    (if FieldsMem fields "from" then { acc with From := h.2 } else acc)
  else if h.1 = "To" then
    (if FieldsMem fields "to" then { acc with To := h.2 } else acc)
  else if h.1 = "Subject" then
    (if FieldsMem fields "subject" then { acc with Subject := h.2 }
     else acc)
  else if h.1 = "Date" then
    (if FieldsMem fields "date" then { acc with Date := h.2 } else acc)
  else acc

/-- The header `switch` of `buildMessageInfo`, folded over
`msg.Payload.Headers`. -/
def applyHeaders (fields : List (String × Bool))
    (hs : List (String × String)) (info : MessageInfo) : MessageInfo :=
  hs.foldl (headerStep fields) info

/-- Embeds `buildMessageInfo` from messages.go. -/
def buildMessageInfo (msg : GmailMessage) (fields : List (String × Bool))
    (userEmail : String) (labelsIndex : Option LabelIndex) : MessageInfo :=
  let info : MessageInfo :=
    { ID := if FieldsMem fields "id" then msg.id else ""
      ThreadID := if FieldsMem fields "threadid" then msg.threadId else ""
      URL := if FieldsMem fields "url" then BuildMailURL userEmail msg.threadId
             else ""
      From := "", To := "", Subject := "", Date := ""
      Snippet := if FieldsMem fields "snippet" then msg.snippet else ""
      Labels := if FieldsMem fields "labels" && labelsIndex.isSome then
                  MapLabelIDsToNames labelsIndex msg.labelIds
                else []
      Body := "" }
  match msg.payload with
  | none => info
  | some p => applyHeaders fields p.headers info

/-- The per-message tail of the listing loop: build the summary and, when
the body field was requested, extract the body from the full payload. -/
def projectMessage (dec : String → Option String)
    (fields : List (String × Bool)) (userEmail : String)
    (labelsIndex : Option LabelIndex) (msg : GmailMessage) : MessageInfo :=
  let info := buildMessageInfo msg fields userEmail labelsIndex
  if FieldsMem fields "body" then { info with Body := ExtractBody dec msg.payload }
  else info

/-- One iteration of the listing loop: fetch the message at the fidelity
the field set requires and project it; a fetch failure skips the
message (`none`). -/
def fetchAndProject (srv : Server) (dec : String → Option String)
    (opts : ListMessagesOptions) (userEmail : String)
    (labelsIndex : Option LabelIndex) (mid : String) : Option MessageInfo :=
  match (if FieldsMem opts.Fields "body" then srv.getFull mid
         else srv.getMetadata mid) with
  | .error _ => none
  | .ok msg => some (projectMessage dec opts.Fields userEmail labelsIndex msg)

/-- Embeds `ListMessages` from messages.go: optional profile fetch,
optional label-index fetch, label resolution, paginated ID accumulation,
then the per-message fetch loop with skip-on-failure. -/
def ListMessages (srv : Server) (dec : String → Option String)
    (opts : ListMessagesOptions) : GoResult (List MessageInfo) :=
  match (if FieldsMem opts.Fields "url" then GetUserEmail srv else .ok "") with
  | .error e => .err e
  | .ok userEmail =>
    match (if decide (opts.LabelIDs ≠ []) || FieldsMem opts.Fields "labels" then
             (FetchLabelIndex srv).map some
           else .ok none) with
    | .error e => .err e
    | .ok labelsIndex =>
      match (if decide (opts.LabelIDs ≠ []) && labelsIndex.isSome then
               ResolveLabelIDs labelsIndex opts.LabelIDs
             else .ok opts.LabelIDs) with
      | .error e => .err e
      | .ok _resolvedLabels =>
        match collectIds srv.listResponses with
        | .error e => .err e
        | .ok allIds =>
          .ok (allIds.filterMap
            (fetchAndProject srv dec opts userEmail labelsIndex))

/-- The unconditional header `switch` of `GetMessage`. -/
def applyHeadersDetail (hs : List (String × String))
    (detail : MessageDetail) : MessageDetail :=
  hs.foldl (fun acc h =>
    if h.1 = "From" then { acc with From := h.2 }
    else if h.1 = "To" then { acc with To := h.2 }
    else if h.1 = "Subject" then { acc with Subject := h.2 }
    else if h.1 = "Date" then { acc with Date := h.2 }
    else acc) detail

/-- Embeds `GetMessage` from messages.go. The header loop ranges over
`msg.Payload.Headers` without a nil check, so a message with no payload
crashes with a nil-pointer dereference (`GoResult.crash`). -/
def GetMessage (srv : Server) (dec : String → Option String)
    (messageID : String) : GoResult MessageDetail :=
  match GetUserEmail srv with
  | .error e => .err e
  | .ok userEmail =>
    match FetchLabelIndex srv with
    | .error e => .err e
    | .ok labelsIndex =>
      match srv.getFull messageID with
      | .error e => .err ("unable to retrieve message: " ++ e)
      | .ok msg =>
        match msg.payload with
        | none => .crash
        | some payload =>
          let base : MessageDetail :=
            { ID := msg.id
              ThreadID := msg.threadId
              URL := BuildMailURL userEmail msg.threadId
              From := "", To := "", Subject := "", Date := ""
              Labels := MapLabelIDsToNames (some labelsIndex) msg.labelIds
              Body := "" }
          let withHeaders := applyHeadersDetail payload.headers base
          .ok { withHeaders with Body := ExtractBody dec msg.payload }

/-! ### JSON key model for `MessageInfo`

`MessageInfo` is serialized with `encoding/json`; every field carries
`omitempty`, so a key appears exactly when the field differs from its
zero value, in struct order. -/

/-- The keys present in the JSON serialization of a `MessageInfo`. -/
def jsonKeys (info : MessageInfo) : List String :=
  (if info.ID ≠ "" then ["id"] else []) ++
  (if info.ThreadID ≠ "" then ["threadId"] else []) ++
  (if info.URL ≠ "" then ["url"] else []) ++
  (if info.From ≠ "" then ["from"] else []) ++
  (if info.To ≠ "" then ["to"] else []) ++
  (if info.Subject ≠ "" then ["subject"] else []) ++
  (if info.Date ≠ "" then ["date"] else []) ++
  (if info.Snippet ≠ "" then ["snippet"] else []) ++
  (if info.Labels ≠ [] then ["labels"] else []) ++
  (if info.Body ≠ "" then ["body"] else [])

/-- The ten field-set names the list path consumes. -/
def summaryFieldNames : List String :=
  ["id", "threadid", "url", "from", "to", "subject", "date", "snippet",
   "labels", "body"]

/-- The JSON key of a field-set name (struct tags rename `threadid`). -/
def jsonKeyOf (fn : String) : String :=
  if fn = "threadid" then "threadId" else fn

/-- The field of `info` selected by field-set name `fn` holds its zero
value. -/
def fieldZero (info : MessageInfo) (fn : String) : Bool :=
  if fn = "id" then info.ID == ""
  else if fn = "threadid" then info.ThreadID == ""
  else if fn = "url" then info.URL == ""
  else if fn = "from" then info.From == ""
  else if fn = "to" then info.To == ""
  else if fn = "subject" then info.Subject == ""
  else if fn = "date" then info.Date == ""
  else if fn = "snippet" then info.Snippet == ""
  else if fn = "labels" then info.Labels.isEmpty
  else if fn = "body" then info.Body == ""
  else true

/-! ### Byte-level truncation (format.go `truncate`)

Go's `len(s)` and `s[:n]` act on raw bytes, so the string is modelled as
its byte sequence; `"..."` is the three bytes `[46, 46, 46]`. -/

/-- Embeds `truncate` from format.go. -/
def truncate (s : List Nat) (maxLen : Nat) : List Nat :=
  if s.length ≤ maxLen then s else s.take (maxLen - 3) ++ [46, 46, 46]

/-! ### Field-set lookup characterization -/

theorem mapGet?_parse_foldl (l : List String) (m0 : List (String × Bool))
    (k : String) :
    mapGet? (l.foldl (fun m f => mapUpd m (goTrimSpace (goToLower f)) true) m0)
        k =
      if k ∈ l.map (fun f => goTrimSpace (goToLower f)) then some true
      else mapGet? m0 k := by
  induction l generalizing m0 with
  | nil => simp
  | cons f rest ih =>
    simp only [List.foldl_cons, List.map_cons, List.mem_cons, ih,
      mapGet?_mapUpd]
    by_cases h1 : k ∈ rest.map (fun f => goTrimSpace (goToLower f))
    · simp [h1]
    · by_cases h2 : goTrimSpace (goToLower f) = k
      · simp [h1, h2]
      · have h2' : ¬ k = goTrimSpace (goToLower f) := fun h => h2 h.symm
        simp [h1, h2, h2']

/-- C8: `ParseFields` splits its input on commas, trims and lowercases
each token, and yields exactly the membership set of the resulting
tokens: empty tokens become empty-string members (a trailing comma
produces one), no field-name vocabulary is enforced, and
`"Id, FROM , subject"` parses to exactly `{"id", "from", "subject"}`. -/
theorem parseFields_spec :
    (∀ s k, FieldsMem (ParseFields s) k = true ↔
      k ∈ (goSplitComma s).map (fun f => goTrimSpace (goToLower f))) ∧
    (∀ k, FieldsMem (ParseFields "Id, FROM , subject") k = true ↔
      (k = "id" ∨ k = "from" ∨ k = "subject")) ∧
    FieldsMem (ParseFields "id,subject,") "" = true := by
  have hmain : ∀ s k, FieldsMem (ParseFields s) k = true ↔
      k ∈ (goSplitComma s).map (fun f => goTrimSpace (goToLower f)) := by
    intro s k
    simp only [FieldsMem, ParseFields, mapGet?_parse_foldl]
    by_cases h : k ∈ (goSplitComma s).map (fun f => goTrimSpace (goToLower f))
    · simp [h]
    · simp [h, mapGet?]
  refine ⟨hmain, ?_, by decide⟩
  intro k
  rw [hmain]
  have hev : (goSplitComma "Id, FROM , subject").map
      (fun f => goTrimSpace (goToLower f)) = ["id", "from", "subject"] := by
    decide
  rw [hev]
  simp

theorem parseFields_spec_witness :
    FieldsMem (ParseFields "a, B") "b" = true :=
  (parseFields_spec.1 "a, B" "b").mpr (by decide)

/-! ### Label resolution claims -/

/-- C3: when every requested token resolves — name lookup first, identity
ID lookup only on a name miss, both on the trimmed lowercased token —
`ResolveLabelIDs` succeeds and returns exactly one canonical ID per
token, in input order, duplicates preserved. -/
theorem resolveLabelIDs_ok (idx : LabelIndex) (requested : List String)
    (h : ∀ tok ∈ requested, (resolveToken idx tok).isSome = true) :
    ResolveLabelIDs (some idx) requested =
      .ok (requested.map (fun tok => (resolveToken idx tok).getD "")) ∧
    (∀ raw raw',
      goToLower (goTrimSpace raw) = goToLower (goTrimSpace raw') →
        resolveToken idx raw = resolveToken idx raw') := by
  refine ⟨?_, fun raw raw' hrr => by simp only [resolveToken, hrr]⟩
  simp only [ResolveLabelIDs]
  induction requested with
  | nil => simp [resolveLoop]
  | cons raw rest ih =>
    have hraw := h raw (List.mem_cons_self raw rest)
    have hrest := ih (fun t ht => h t (List.mem_cons_of_mem raw ht))
    simp only [resolveLoop, List.map_cons]
    cases hname : mapGet? idx.nameToID (goToLower (goTrimSpace raw)) with
    | some id => simp [hrest, resolveToken, hname, Except.map]
    | none =>
      cases hid : mapGet? idx.idToID (goToLower (goTrimSpace raw)) with
      | some id => simp [hrest, resolveToken, hname, hid, Except.map]
      | none =>
        rw [resolveToken, hname, hid] at hraw
        cases hraw

/-- A two-label index: a user label with distinct ID and display name,
and a system label. -/
def idxEx : LabelIndex :=
  buildLabelIndex [⟨"Label_7", "Work"⟩, ⟨"INBOX", "INBOX"⟩]

theorem resolveLabelIDs_ok_witness :
    ResolveLabelIDs (some idxEx) [" Work ", "WORK", "inbox", "label_7"] =
      .ok ["Label_7", "Label_7", "INBOX", "Label_7"] :=
  (resolveLabelIDs_ok idxEx [" Work ", "WORK", "inbox", "label_7"]
    (by decide)).1.trans rfl

/-- C4: a token that matches neither a label name nor a label ID fails
the whole resolution immediately with an error naming that token, and in
the listing path this abort happens before any listing or per-message
fetch: `ListMessages` returns that very error whatever the list and get
endpoints would have answered. -/
theorem resolveLabelIDs_fail (ls : List GoLabel) (good : List String)
    (raw : String) (rest : List String) (em : String)
    (lr : List (Except String ListPage))
    (gf gm : String → Except String GmailMessage)
    (dec : String → Option String) (q : String) (mr : Int)
    (fields : List (String × Bool))
    (hgood : ∀ tok ∈ good,
      (resolveToken (buildLabelIndex ls) tok).isSome = true)
    (hbad : resolveToken (buildLabelIndex ls) raw = none) :
    ResolveLabelIDs (some (buildLabelIndex ls)) (good ++ raw :: rest) =
      .error ("label not found: " ++ raw) ∧
    ListMessages ⟨.ok em, .ok ls, lr, gf, gm⟩ dec
      ⟨q, mr, good ++ raw :: rest, fields⟩ =
      .err ("label not found: " ++ raw) := by
  have hres : ResolveLabelIDs (some (buildLabelIndex ls))
      (good ++ raw :: rest) = .error ("label not found: " ++ raw) := by
    simp only [ResolveLabelIDs]
    induction good with
    | nil =>
      simp only [List.nil_append, resolveLoop]
      rw [resolveToken] at hbad
      cases hname : mapGet? (buildLabelIndex ls).nameToID
          (goToLower (goTrimSpace raw)) with
      | some id => rw [hname] at hbad; simp at hbad
      | none =>
        rw [hname] at hbad
        simp only [] at hbad
        simp [hbad]
    | cons g gtl ih =>
      have hg := hgood g (List.mem_cons_self g gtl)
      have ih' := ih (fun t ht => hgood t (List.mem_cons_of_mem g ht))
      simp only [List.cons_append, resolveLoop]
      cases hname : mapGet? (buildLabelIndex ls).nameToID
          (goToLower (goTrimSpace g)) with
      | some id => simp [ih', Except.map]
      | none =>
        cases hid : mapGet? (buildLabelIndex ls).idToID
            (goToLower (goTrimSpace g)) with
        | some id => simp [ih', Except.map]
        | none => rw [resolveToken, hname, hid] at hg; cases hg
  refine ⟨hres, ?_⟩
  have hne : decide ((good ++ raw :: rest) ≠ []) = true := by
    simp
  by_cases hurl : FieldsMem fields "url" = true <;>
    simp [ListMessages, hurl, GetUserEmail, hne, FetchLabelIndex,
      Except.map, hres]

theorem resolveLabelIDs_fail_witness :
    ResolveLabelIDs (some (buildLabelIndex [⟨"INBOX", "INBOX"⟩]))
      ["inbox", "My Label"] = .error "label not found: My Label" ∧
    ListMessages
      ⟨.ok "u@example.com", .ok [⟨"INBOX", "INBOX"⟩], [.ok ⟨["m1"], ""⟩],
        fun _ => .ok ⟨"m1", "t1", [], "", none⟩,
        fun _ => .ok ⟨"m1", "t1", [], "", none⟩⟩ dec0
      ⟨"", 10, ["inbox", "My Label"], ParseFields "id"⟩ =
      .err "label not found: My Label" :=
  resolveLabelIDs_fail [⟨"INBOX", "INBOX"⟩] ["inbox"] "My Label" []
    "u@example.com" [.ok ⟨["m1"], ""⟩]
    (fun _ => .ok ⟨"m1", "t1", [], "", none⟩)
    (fun _ => .ok ⟨"m1", "t1", [], "", none⟩)
    dec0 "" 10 (ParseFields "id") (by decide) (by decide)

/-! ### Pagination claims -/

/-- The server's successive list responses for a given page split: every
page but the last carries a continuation token, the last does not. -/
def mkResponses : List (List String) → List (Except String ListPage)
  | [] => []
  | p :: rest =>
    .ok ⟨p, if rest.isEmpty then "" else "next"⟩ :: mkResponses rest

theorem collectIds_mkResponses_append (ps : List (List String))
    (h : ps ≠ []) (extra : List (Except String ListPage)) :
    collectIds (mkResponses ps ++ extra) = .ok ps.flatten := by
  induction ps with
  | nil => cases h rfl
  | cons p rest ih =>
    by_cases hr : rest = []
    · subst hr
      simp [mkResponses, collectIds]
    · have hrec := ih hr
      simp [mkResponses, collectIds, hr, hrec, Except.map]

/-- C5: the pagination loop aggregates the pages' identifiers by
concatenation in order, requests a further page exactly while a
continuation token is present, stops at the first response with no token
(responses beyond it are never consumed), and the aggregate depends only
on the concatenation, not on how it is split into pages. -/
theorem listMessages_pagination (ps qs : List (List String))
    (extra : List (Except String ListPage))
    (hps : ps ≠ []) (hqs : qs ≠ []) (hflat : qs.flatten = ps.flatten) :
    collectIds (mkResponses ps) = .ok ps.flatten ∧
    collectIds (mkResponses ps ++ extra) = .ok ps.flatten ∧
    collectIds (mkResponses qs) = collectIds (mkResponses ps) := by
  have h1 := collectIds_mkResponses_append ps hps []
  rw [List.append_nil] at h1
  have h2 := collectIds_mkResponses_append ps hps extra
  have h3 := collectIds_mkResponses_append qs hqs []
  rw [List.append_nil] at h3
  exact ⟨h1, h2, by rw [h1, h3, hflat]⟩

theorem listMessages_pagination_witness :
    collectIds (mkResponses [["a", "b"], ["c", "d"], ["e"]]) =
      .ok ["a", "b", "c", "d", "e"] ∧
    collectIds (mkResponses [["a", "b", "c", "d", "e"]]) =
      collectIds (mkResponses [["a", "b"], ["c", "d"], ["e"]]) := by
  have h := listMessages_pagination [["a", "b"], ["c", "d"], ["e"]]
    [["a", "b", "c", "d", "e"]]
    [.error "never requested"] (by decide) (by decide) (by decide)
  exact ⟨h.1.trans rfl, h.2.2⟩

/-! ### Truncation claim -/

/-- C10: at the table renderer's widths — 30 for from/to, 40 for
subject, 50 for snippet — `truncate` returns the string unchanged when
its byte length is within the bound, and otherwise the first
`maxLen - 3` bytes followed by `"..."`, a result of exactly `maxLen`
bytes; the bound counts bytes, not display characters. -/
theorem truncate_spec (s : List Nat) (maxLen : Nat)
    (hw : maxLen = 30 ∨ maxLen = 40 ∨ maxLen = 50) :
    (s.length ≤ maxLen → truncate s maxLen = s) ∧
    (maxLen < s.length →
      truncate s maxLen = s.take (maxLen - 3) ++ [46, 46, 46] ∧
      (truncate s maxLen).length = maxLen) := by
  constructor
  · intro h; simp [truncate, h]
  · intro h
    have hle : ¬ s.length ≤ maxLen := by omega
    refine ⟨by simp [truncate, hle], ?_⟩
    simp only [truncate, if_neg hle, List.length_append, List.length_take,
      List.length_cons, List.length_nil]
    have hmin : min (maxLen - 3) s.length = maxLen - 3 :=
      Nat.min_eq_left (by omega)
    rw [hmin]
    rcases hw with h3 | h3 | h3 <;> subst h3 <;> rfl

theorem truncate_spec_witness :
    ((List.replicate 35 65).length ≤ 30 →
      truncate (List.replicate 35 65) 30 = List.replicate 35 65) ∧
    (30 < (List.replicate 35 65).length →
      truncate (List.replicate 35 65) 30 =
        (List.replicate 35 65).take 27 ++ [46, 46, 46] ∧
      (truncate (List.replicate 35 65) 30).length = 30) :=
  truncate_spec (List.replicate 35 65) 30 (Or.inl rfl)

/-! ### Frame lemmas for the header loop -/

theorem headerStep_frame (fields : List (String × Bool))
    (acc : MessageInfo) (h : String × String) :
    (headerStep fields acc h).ID = acc.ID ∧
    (headerStep fields acc h).ThreadID = acc.ThreadID ∧
    (headerStep fields acc h).URL = acc.URL ∧
    (headerStep fields acc h).Snippet = acc.Snippet ∧
    (headerStep fields acc h).Labels = acc.Labels ∧
    (headerStep fields acc h).Body = acc.Body ∧
    (FieldsMem fields "from" = false →
      (headerStep fields acc h).From = acc.From) ∧
    (FieldsMem fields "to" = false →
      (headerStep fields acc h).To = acc.To) ∧
    (FieldsMem fields "subject" = false →
      (headerStep fields acc h).Subject = acc.Subject) ∧
    (FieldsMem fields "date" = false →
      (headerStep fields acc h).Date = acc.Date) := by
  refine ⟨?_, ?_, ?_, ?_, ?_, ?_, ?_, ?_, ?_, ?_⟩
  · unfold headerStep; repeat' split
    all_goals rfl
  · unfold headerStep; repeat' split
    all_goals rfl
  · unfold headerStep; repeat' split
    all_goals rfl
  · unfold headerStep; repeat' split
    all_goals rfl
  · unfold headerStep; repeat' split
    all_goals rfl
  · unfold headerStep; repeat' split
    all_goals rfl
  · intro hmem; unfold headerStep; repeat' split
    all_goals first | rfl | simp_all
  · intro hmem; unfold headerStep; repeat' split
    all_goals first | rfl | simp_all
  · intro hmem; unfold headerStep; repeat' split
    all_goals first | rfl | simp_all
  · intro hmem; unfold headerStep; repeat' split
    all_goals first | rfl | simp_all

theorem applyHeaders_frame (fields : List (String × Bool))
    (hs : List (String × String)) (info : MessageInfo) :
    (applyHeaders fields hs info).ID = info.ID ∧
    (applyHeaders fields hs info).ThreadID = info.ThreadID ∧
    (applyHeaders fields hs info).URL = info.URL ∧
    (applyHeaders fields hs info).Snippet = info.Snippet ∧
    (applyHeaders fields hs info).Labels = info.Labels ∧
    (applyHeaders fields hs info).Body = info.Body ∧
    (FieldsMem fields "from" = false →
      (applyHeaders fields hs info).From = info.From) ∧
    (FieldsMem fields "to" = false →
      (applyHeaders fields hs info).To = info.To) ∧
    (FieldsMem fields "subject" = false →
      (applyHeaders fields hs info).Subject = info.Subject) ∧
    (FieldsMem fields "date" = false →
      (applyHeaders fields hs info).Date = info.Date) := by
  induction hs generalizing info with
  | nil => simp [applyHeaders]
  | cons hd rest ih =>
    simp only [applyHeaders, List.foldl_cons] at *
    have hstep := headerStep_frame fields info hd
    have htail := ih (headerStep fields info hd)
    exact ⟨htail.1.trans hstep.1,
      htail.2.1.trans hstep.2.1,
      htail.2.2.1.trans hstep.2.2.1,
      htail.2.2.2.1.trans hstep.2.2.2.1,
      htail.2.2.2.2.1.trans hstep.2.2.2.2.1,
      htail.2.2.2.2.2.1.trans hstep.2.2.2.2.2.1,
      fun hm => (htail.2.2.2.2.2.2.1 hm).trans (hstep.2.2.2.2.2.2.1 hm),
      fun hm => (htail.2.2.2.2.2.2.2.1 hm).trans
        (hstep.2.2.2.2.2.2.2.1 hm),
      fun hm => (htail.2.2.2.2.2.2.2.2.1 hm).trans
        (hstep.2.2.2.2.2.2.2.2.1 hm),
      fun hm => (htail.2.2.2.2.2.2.2.2.2 hm).trans
        (hstep.2.2.2.2.2.2.2.2.2 hm)⟩

/-! ### Componentwise description of `buildMessageInfo` and
`projectMessage` -/

theorem buildMessageInfo_ID (msg : GmailMessage)
    (fields : List (String × Bool)) (em : String)
    (idxo : Option LabelIndex) :
    (buildMessageInfo msg fields em idxo).ID =
      (if FieldsMem fields "id" then msg.id else "") := by
  unfold buildMessageInfo
  cases msg.payload with
  | none => rfl
  | some p => exact ((applyHeaders_frame fields p.headers _).1).trans rfl

theorem buildMessageInfo_ThreadID (msg : GmailMessage)
    (fields : List (String × Bool)) (em : String)
    (idxo : Option LabelIndex) :
    (buildMessageInfo msg fields em idxo).ThreadID =
      (if FieldsMem fields "threadid" then msg.threadId else "") := by
  unfold buildMessageInfo
  cases msg.payload with
  | none => rfl
  | some p => exact ((applyHeaders_frame fields p.headers _).2.1).trans rfl

theorem buildMessageInfo_URL (msg : GmailMessage)
    (fields : List (String × Bool)) (em : String)
    (idxo : Option LabelIndex) :
    (buildMessageInfo msg fields em idxo).URL =
      (if FieldsMem fields "url" then BuildMailURL em msg.threadId
       else "") := by
  unfold buildMessageInfo
  cases msg.payload with
  | none => rfl
  | some p => exact ((applyHeaders_frame fields p.headers _).2.2.1).trans rfl

theorem buildMessageInfo_Snippet (msg : GmailMessage)
    (fields : List (String × Bool)) (em : String)
    (idxo : Option LabelIndex) :
    (buildMessageInfo msg fields em idxo).Snippet =
      (if FieldsMem fields "snippet" then msg.snippet else "") := by
  unfold buildMessageInfo
  cases msg.payload with
  | none => rfl
  | some p =>
    exact ((applyHeaders_frame fields p.headers _).2.2.2.1).trans rfl

theorem buildMessageInfo_Labels (msg : GmailMessage)
    (fields : List (String × Bool)) (em : String)
    (idxo : Option LabelIndex) :
    (buildMessageInfo msg fields em idxo).Labels =
      (if FieldsMem fields "labels" && idxo.isSome then
        MapLabelIDsToNames idxo msg.labelIds
       else []) := by
  unfold buildMessageInfo
  cases msg.payload with
  | none => rfl
  | some p =>
    exact ((applyHeaders_frame fields p.headers _).2.2.2.2.1).trans rfl

theorem buildMessageInfo_Body (msg : GmailMessage)
    (fields : List (String × Bool)) (em : String)
    (idxo : Option LabelIndex) :
    (buildMessageInfo msg fields em idxo).Body = "" := by
  unfold buildMessageInfo
  cases msg.payload with
  | none => rfl
  | some p =>
    exact ((applyHeaders_frame fields p.headers _).2.2.2.2.2.1).trans rfl

theorem buildMessageInfo_From (msg : GmailMessage)
    (fields : List (String × Bool)) (em : String)
    (idxo : Option LabelIndex) (hmem : FieldsMem fields "from" = false) :
    (buildMessageInfo msg fields em idxo).From = "" := by
  unfold buildMessageInfo
  cases msg.payload with
  | none => rfl
  | some p =>
    exact ((applyHeaders_frame fields p.headers _).2.2.2.2.2.2.1
      hmem).trans rfl

theorem buildMessageInfo_To (msg : GmailMessage)
    (fields : List (String × Bool)) (em : String)
    (idxo : Option LabelIndex) (hmem : FieldsMem fields "to" = false) :
    (buildMessageInfo msg fields em idxo).To = "" := by
  unfold buildMessageInfo
  cases msg.payload with
  | none => rfl
  | some p =>
    exact ((applyHeaders_frame fields p.headers _).2.2.2.2.2.2.2.1
      hmem).trans rfl

theorem buildMessageInfo_Subject (msg : GmailMessage)
    (fields : List (String × Bool)) (em : String)
    (idxo : Option LabelIndex)
    (hmem : FieldsMem fields "subject" = false) :
    (buildMessageInfo msg fields em idxo).Subject = "" := by
  unfold buildMessageInfo
  cases msg.payload with
  | none => rfl
  | some p =>
    exact ((applyHeaders_frame fields p.headers _).2.2.2.2.2.2.2.2.1
      hmem).trans rfl

theorem buildMessageInfo_Date (msg : GmailMessage)
    (fields : List (String × Bool)) (em : String)
    (idxo : Option LabelIndex) (hmem : FieldsMem fields "date" = false) :
    (buildMessageInfo msg fields em idxo).Date = "" := by
  unfold buildMessageInfo
  cases msg.payload with
  | none => rfl
  | some p =>
    exact ((applyHeaders_frame fields p.headers _).2.2.2.2.2.2.2.2.2
      hmem).trans rfl

theorem projectMessage_proj (dec : String → Option String)
    (msg : GmailMessage) (fields : List (String × Bool)) (em : String)
    (idxo : Option LabelIndex) :
    (projectMessage dec fields em idxo msg).ID =
      (buildMessageInfo msg fields em idxo).ID ∧
    (projectMessage dec fields em idxo msg).ThreadID =
      (buildMessageInfo msg fields em idxo).ThreadID ∧
    (projectMessage dec fields em idxo msg).URL =
      (buildMessageInfo msg fields em idxo).URL ∧
    (projectMessage dec fields em idxo msg).From =
      (buildMessageInfo msg fields em idxo).From ∧
    (projectMessage dec fields em idxo msg).To =
      (buildMessageInfo msg fields em idxo).To ∧
    (projectMessage dec fields em idxo msg).Subject =
      (buildMessageInfo msg fields em idxo).Subject ∧
    (projectMessage dec fields em idxo msg).Date =
      (buildMessageInfo msg fields em idxo).Date ∧
    (projectMessage dec fields em idxo msg).Snippet =
      (buildMessageInfo msg fields em idxo).Snippet ∧
    (projectMessage dec fields em idxo msg).Labels =
      (buildMessageInfo msg fields em idxo).Labels := by
  refine ⟨?_, ?_, ?_, ?_, ?_, ?_, ?_, ?_, ?_⟩ <;>
    (unfold projectMessage; split)
  all_goals rfl

theorem projectMessage_Body (dec : String → Option String)
    (msg : GmailMessage) (fields : List (String × Bool)) (em : String)
    (idxo : Option LabelIndex) (hmem : FieldsMem fields "body" = false) :
    (projectMessage dec fields em idxo msg).Body = "" := by
  unfold projectMessage
  rw [if_neg (by simp [hmem])]
  exact buildMessageInfo_Body msg fields em idxo

/-! ### JSON key membership -/

theorem mem_ite_singleton (c : Prop) [Decidable c] (k a : String) :
    (k ∈ (if c then [a] else [])) ↔ (c ∧ k = a) := by
  split <;> simp_all

theorem mem_jsonKeys (info : MessageInfo) (k : String) :
    k ∈ jsonKeys info ↔
      ((info.ID ≠ "" ∧ k = "id") ∨
       (info.ThreadID ≠ "" ∧ k = "threadId") ∨
       (info.URL ≠ "" ∧ k = "url") ∨
       (info.From ≠ "" ∧ k = "from") ∨
       (info.To ≠ "" ∧ k = "to") ∨
       (info.Subject ≠ "" ∧ k = "subject") ∨
       (info.Date ≠ "" ∧ k = "date") ∨
       (info.Snippet ≠ "" ∧ k = "snippet") ∨
       (info.Labels ≠ [] ∧ k = "labels") ∨
       (info.Body ≠ "" ∧ k = "body")) := by
  simp [jsonKeys, List.mem_append, mem_ite_singleton]

/-- C7: the list path populates a summary field only if its name is a
member of the field set — every unrequested field keeps its zero value
and its key is omitted entirely from the serialized JSON output. -/
theorem listPath_field_frame (dec : String → Option String)
    (msg : GmailMessage) (fields : List (String × Bool)) (em : String)
    (idxo : Option LabelIndex) (fn : String)
    (hfn : fn ∈ summaryFieldNames) (hnot : FieldsMem fields fn = false) :
    fieldZero (projectMessage dec fields em idxo msg) fn = true ∧
    jsonKeyOf fn ∉ jsonKeys (projectMessage dec fields em idxo msg) := by
  have hp := projectMessage_proj dec msg fields em idxo
  fin_cases hfn
  · have hz : (projectMessage dec fields em idxo msg).ID = "" := by
      rw [hp.1, buildMessageInfo_ID]; simp [hnot]
    exact ⟨by simp [fieldZero, hz], by simp [jsonKeyOf, mem_jsonKeys, hz]⟩
  · have hz : (projectMessage dec fields em idxo msg).ThreadID = "" := by
      rw [hp.2.1, buildMessageInfo_ThreadID]; simp [hnot]
    exact ⟨by simp [fieldZero, hz], by simp [jsonKeyOf, mem_jsonKeys, hz]⟩
  · have hz : (projectMessage dec fields em idxo msg).URL = "" := by
      rw [hp.2.2.1, buildMessageInfo_URL]; simp [hnot]
    exact ⟨by simp [fieldZero, hz], by simp [jsonKeyOf, mem_jsonKeys, hz]⟩
  · have hz : (projectMessage dec fields em idxo msg).From = "" := by
      rw [hp.2.2.2.1]; exact buildMessageInfo_From msg fields em idxo hnot
    exact ⟨by simp [fieldZero, hz], by simp [jsonKeyOf, mem_jsonKeys, hz]⟩
  · have hz : (projectMessage dec fields em idxo msg).To = "" := by
      rw [hp.2.2.2.2.1]; exact buildMessageInfo_To msg fields em idxo hnot
    exact ⟨by simp [fieldZero, hz], by simp [jsonKeyOf, mem_jsonKeys, hz]⟩
  · have hz : (projectMessage dec fields em idxo msg).Subject = "" := by
      rw [hp.2.2.2.2.2.1]
      exact buildMessageInfo_Subject msg fields em idxo hnot
    exact ⟨by simp [fieldZero, hz], by simp [jsonKeyOf, mem_jsonKeys, hz]⟩
  · have hz : (projectMessage dec fields em idxo msg).Date = "" := by
      rw [hp.2.2.2.2.2.2.1]
      exact buildMessageInfo_Date msg fields em idxo hnot
    exact ⟨by simp [fieldZero, hz], by simp [jsonKeyOf, mem_jsonKeys, hz]⟩
  · have hz : (projectMessage dec fields em idxo msg).Snippet = "" := by
      rw [hp.2.2.2.2.2.2.2.1, buildMessageInfo_Snippet]; simp [hnot]
    exact ⟨by simp [fieldZero, hz], by simp [jsonKeyOf, mem_jsonKeys, hz]⟩
  · have hz : (projectMessage dec fields em idxo msg).Labels = [] := by
      rw [hp.2.2.2.2.2.2.2.2, buildMessageInfo_Labels]; simp [hnot]
    exact ⟨by simp [fieldZero, hz], by simp [jsonKeyOf, mem_jsonKeys, hz]⟩
  · have hz : (projectMessage dec fields em idxo msg).Body = "" :=
      projectMessage_Body dec msg fields em idxo hnot
    exact ⟨by simp [fieldZero, hz], by simp [jsonKeyOf, mem_jsonKeys, hz]⟩

/-- A fetched message carrying a plain-text payload with a `From`
header. -/
def msgW : GmailMessage :=
  ⟨"m9", "t9", ["INBOX"], "hello",
    some (.mk "text/plain" (some "x") [("From", "alice@example.com")] [])⟩

theorem listPath_field_frame_witness :
    fieldZero (projectMessage dec0 (ParseFields "id,subject") "" none msgW)
      "from" = true ∧
    jsonKeyOf "from" ∉
      jsonKeys (projectMessage dec0 (ParseFields "id,subject") "" none
        msgW) :=
  listPath_field_frame dec0 msgW (ParseFields "id,subject") "" none "from"
    (by decide) (by decide)

/-! ### Listing skip-on-failure policy -/

/-- C6: per-message fetch failures during listing are skipped: the
listing returns without error the summaries of exactly the accumulated
identifiers whose fetch succeeded, in their original order. -/
theorem listMessages_skips_failed (srv : Server)
    (dec : String → Option String) (opts : ListMessagesOptions)
    (em : String) (idxo : Option LabelIndex) (rl ids : List String)
    (h1 : (if FieldsMem opts.Fields "url" then GetUserEmail srv
           else .ok "") = .ok em)
    (h2 : (if decide (opts.LabelIDs ≠ []) || FieldsMem opts.Fields "labels"
           then (FetchLabelIndex srv).map some else .ok none) = .ok idxo)
    (h3 : (if decide (opts.LabelIDs ≠ []) && idxo.isSome then
             ResolveLabelIDs idxo opts.LabelIDs
           else .ok opts.LabelIDs) = .ok rl)
    (h4 : collectIds srv.listResponses = .ok ids) :
    ListMessages srv dec opts =
      .ok (ids.filterMap (fetchAndProject srv dec opts em idxo)) := by
  simp only [ListMessages, h1, h2, h3, h4]

/-- Messages answered by the metadata endpoint of `srvC6`. -/
def msgA : GmailMessage := ⟨"m1", "t1", [], "snippet-a", none⟩

def msgC : GmailMessage := ⟨"m3", "t3", [], "snippet-c", none⟩

/-- A server whose listing yields three IDs over two pages and whose
metadata fetch fails for the middle one. -/
def srvC6 : Server :=
  { profile := .ok "user@example.com"
    labelsList := .ok []
    listResponses := [.ok ⟨["m1", "m2"], "tok"⟩, .ok ⟨["m3"], ""⟩]
    getFull := fun _ => .error "unused"
    getMetadata := fun mid =>
      if mid = "m2" then .error "gone"
      else if mid = "m1" then .ok msgA else .ok msgC }

def optsC6 : ListMessagesOptions := ⟨"", 10, [], ParseFields "id,snippet"⟩

theorem listMessages_skips_failed_witness :
    ListMessages srvC6 dec0 optsC6 =
      .ok [⟨"m1", "", "", "", "", "", "", "snippet-a", [], ""⟩,
           ⟨"m3", "", "", "", "", "", "", "snippet-c", [], ""⟩] :=
  (listMessages_skips_failed srvC6 dec0 optsC6 "" none []
    ["m1", "m2", "m3"] rfl rfl rfl rfl).trans rfl

/-! ### Nil-payload safety -/

/-- A server whose message fetch returns a message with no payload. -/
def srvNoPayload : Server :=
  { profile := .ok "user@example.com"
    labelsList := .ok []
    listResponses := []
    getFull := fun _ => .ok ⟨"m1", "t1", [], "", none⟩
    getMetadata := fun _ => .ok ⟨"m1", "t1", [], "", none⟩ }

/-- C9 counterexample: a fetched message with no payload crashes the get
path — `GetMessage` dereferences `msg.Payload.Headers` with no nil check
— even though `ExtractBody` itself is nil-safe. -/
theorem getMessage_crash_on_missing_payload :
    GetMessage srvNoPayload dec0 "m1" = GoResult.crash := rfl

/-- C9 (amended): `ExtractBody` is total at the public interface — a
nil/absent payload yields the empty string — and the list path can never
crash on a message without a body-part tree; the get path, which
dereferences the payload for header extraction without a nil check, is
the exception. -/
theorem extractBody_nil_total_list_no_crash :
    (∀ dec, ExtractBody dec none = "") ∧
    (∀ srv dec opts, ListMessages srv dec opts ≠ GoResult.crash) := by
  refine ⟨fun dec => rfl, ?_⟩
  intro srv dec opts h
  simp only [ListMessages] at h
  repeat' split at h
  all_goals cases h

theorem extractBody_nil_total_list_no_crash_witness :
    ExtractBody dec0 none = "" ∧
    ListMessages srvNoPayload dec0 ⟨"", 10, [], []⟩ ≠ GoResult.crash :=
  ⟨extractBody_nil_total_list_no_crash.1 dec0,
   extractBody_nil_total_list_no_crash.2 srvNoPayload dec0 ⟨"", 10, [], []⟩⟩

/-! ### Body-extraction claims -/

theorem ExtractBody_some (dec : String → Option String)
    (payload : MessagePart) :
    ExtractBody dec (some payload) =
      (if findBodyPart dec "text/plain" payload ≠ "" then
        findBodyPart dec "text/plain" payload
       else if findBodyPart dec "text/html" payload ≠ "" then
        findBodyPart dec "text/html" payload
       else if payload.bodyData ≠ "" then
        match dec payload.bodyData with
        | none => ""
        | some s => s
       else "") := rfl

theorem firstDecodedSpec_eq_none {dec : String → Option String}
    (hdec : DecNonEmpty dec) {mimeType : String} {t : MessagePart}
    (h : (firstDecodedSpec dec mimeType t).getD "" = "") :
    firstDecodedSpec dec mimeType t = none := by
  cases hf : firstDecodedSpec dec mimeType t with
  | none => rfl
  | some s =>
    rw [hf] at h
    simp only [Option.getD_some] at h
    exact absurd h (firstDecodedSpec_ne_empty hdec hf)

/-- C1 (amended): for trees whose non-empty content sits in childless
parts — the shape MIME messages have — and a decoder yielding non-empty
output on non-empty input (true of base64url on non-blank data),
`ExtractBody` returns the empty string only if no candidate anywhere in
the tree decodes successfully: no `text/plain` or `text/html` part with
non-empty content decodes, nor does the root's inline body. A decoding
failure is then never fatal — it falls through to the next candidate.
(Without the childless-content restriction this fails: a failing
candidate's own sub-parts are skipped, see the counterexample.) -/
theorem extractBody_empty_only_if (dec : String → Option String)
    (hdec : DecNonEmpty dec) (t : MessagePart)
    (hleaf : leafBodies t = true)
    (hempty : ExtractBody dec (some t) = "") :
    anyTextCandidateDecodes dec t = false ∧
    rootInlineDecodes dec t = false := by
  have hplain := findBodyPart_eq_firstDecodedSpec dec hdec "text/plain" t
    hleaf
  have hhtml := findBodyPart_eq_firstDecodedSpec dec hdec "text/html" t
    hleaf
  rw [ExtractBody_some] at hempty
  by_cases h1 : findBodyPart dec "text/plain" t = ""
  · rw [if_neg (by simp [h1])] at hempty
    by_cases h2 : findBodyPart dec "text/html" t = ""
    · rw [if_neg (by simp [h2])] at hempty
      have hn1 : firstDecodedSpec dec "text/plain" t = none :=
        firstDecodedSpec_eq_none hdec (hplain.symm.trans h1)
      have hn2 : firstDecodedSpec dec "text/html" t = none :=
        firstDecodedSpec_eq_none hdec (hhtml.symm.trans h2)
      have hall1 := List.findSome?_eq_none_iff.mp hn1
      have hall2 := List.findSome?_eq_none_iff.mp hn2
      constructor
      · simp only [anyTextCandidateDecodes, List.any_eq_false]
        intro p hp
        have hp1 := hall1 p hp
        have hp2 := hall2 p hp
        by_cases hc1 : isCandidate "text/plain" p = true
        · rw [if_pos hc1] at hp1
          simp [hp1]
        · by_cases hc2 : isCandidate "text/html" p = true
          · rw [if_pos hc2] at hp2
            simp [hp2]
          · simp [Bool.not_eq_true] at hc1 hc2
            simp [hc1, hc2]
      · by_cases h3 : t.bodyData = ""
        · simp [rootInlineDecodes, h3]
        · rw [if_pos h3] at hempty
          cases hd : dec t.bodyData with
          | none => simp [rootInlineDecodes, hd]
          | some s =>
            rw [hd] at hempty
            exact absurd hempty (hdec t.bodyData h3 s hd)
    · rw [if_pos h2] at hempty
      exact absurd hempty h2
  · rw [if_pos h1] at hempty
    exact absurd hempty h1

theorem extractBody_empty_only_if_witness :
    anyTextCandidateDecodes dec0
      (.mk "text/plain" (some "BAD") [] []) = false ∧
    rootInlineDecodes dec0 (.mk "text/plain" (some "BAD") [] []) = false :=
  extractBody_empty_only_if dec0 dec0_nonEmpty
    (.mk "text/plain" (some "BAD") [] []) (by decide) (by decide)

/-- The C1 counterexample tree: a plain-text part whose content fails to
decode, with a decodable plain-text part nested beneath it. -/
def tC1 : MessagePart :=
  .mk "multipart/alternative" none []
    [.mk "text/plain" (some "BAD") []
      [.mk "text/plain" (some "hello") [] []]]

/-- C1 counterexample: `ExtractBody` returns `""` although a candidate in
the tree — the nested plain-text part — decodes successfully: the decode
failure of its parent skipped the whole subtree instead of falling
through to the next candidate. -/
theorem extractBody_empty_despite_decodable_candidate :
    ExtractBody dec0 (some tC1) = "" ∧
    anyTextCandidateDecodes dec0 tC1 = true := by
  decide

/-- C2 (amended): for trees whose non-empty content sits in childless
parts and a decoder yielding non-empty output on non-empty input, the
extracted body is the decoded content of the first `text/plain`
candidate, in depth-first pre-order, that decodes successfully —
whatever `text/html` parts appear before it — and a `text/html`
candidate's content is returned only when no `text/plain` candidate
yields a body. (Without the childless-content restriction the pre-order
claim fails: a failing candidate's subtree is skipped, see the
counterexample.) -/
theorem extractBody_prefers_first_plain (dec : String → Option String)
    (hdec : DecNonEmpty dec) (t : MessagePart)
    (hleaf : leafBodies t = true) :
    (∀ s, firstDecodedSpec dec "text/plain" t = some s →
      ExtractBody dec (some t) = s) ∧
    (firstDecodedSpec dec "text/plain" t = none →
      ∀ s, firstDecodedSpec dec "text/html" t = some s →
        ExtractBody dec (some t) = s) := by
  have hplain := findBodyPart_eq_firstDecodedSpec dec hdec "text/plain" t
    hleaf
  have hhtml := findBodyPart_eq_firstDecodedSpec dec hdec "text/html" t
    hleaf
  constructor
  · intro s hs
    have hne := firstDecodedSpec_ne_empty hdec hs
    rw [ExtractBody_some, hplain, hs]
    simp [hne]
  · intro hnone s hs
    have hne := firstDecodedSpec_ne_empty hdec hs
    rw [ExtractBody_some, hplain, hnone, hhtml, hs]
    simp [hne]

/-- A tree with an HTML part before a plain-text part. -/
def tC2w : MessagePart :=
  .mk "multipart/alternative" none []
    [.mk "text/html" (some "<p>h</p>") [] [],
     .mk "text/plain" (some "plain wins") [] []]

theorem extractBody_prefers_first_plain_witness :
    ExtractBody dec0 (some tC2w) = "plain wins" :=
  (extractBody_prefers_first_plain dec0 dec0_nonEmpty tC2w (by decide)).1
    "plain wins" (by decide)

/-- The C2 counterexample tree: a failing plain-text candidate holding
the first decodable plain-text part, followed by a later sibling
candidate. -/
def tC2 : MessagePart :=
  .mk "multipart/mixed" none []
    [.mk "text/plain" (some "BAD") []
      [.mk "text/plain" (some "first") [] []],
     .mk "text/plain" (some "later") [] []]

/-- C2 counterexample: the first depth-first pre-order `text/plain`
candidate that decodes successfully carries "first", yet `ExtractBody`
returns "later" — the failing candidate's subtree is skipped, so the
returned part is not the pre-order-first decodable one. -/
theorem extractBody_skips_nested_first_candidate :
    firstDecodedSpec dec0 "text/plain" tC2 = some "first" ∧
    ExtractBody dec0 (some tC2) = "later" := by
  decide

end Gml
